import Mathlib

/-!
Verification of the `libtnb/sessions` session store.

The Go sources are shallowly embedded below:
* Go `map[string]any` becomes an association list `AttrMap` with
  overwrite-on-set semantics (`mapSet`, `mapDel`, `mapGet`); Go map keys are
  unique, which for an arbitrary embedded state is captured by `nodupKeys`
  hypotheses where the iteration order of a Go `range` loop would otherwise
  matter.
* `any` values become the inductive `Val`; the flash bookkeeping keys
  (`_flash.old`, `_flash.new`) hold `Val.vlist` values, matching the only
  values the code ever stores there.
* The driver (`driver.Driver`) is a blob store `DriverState` with failure
  injection; the codec (`securecookie.Codec`) is a pair of abstract
  encode/decode functions.
* The Manager's per-ID lock registry (`sync.Map` of mutexes) is embedded by
  its entry set, a `List String` of session IDs holding an entry:
  `LockSession` performs `LoadOrStore` (insert if absent) and `UnlockSession`
  only unlocks the mutex, leaving the entry set unchanged.
* `generateSessionID` wraps the external `nanoid` generator
  (`MustCustomASCII(alphabet, 32)`); its randomness is embedded as an
  explicit entropy argument of 32 draws from the 62-character alphabet,
  which is that library's contract.
-/

namespace Sessions

/-- Embedded attribute values (Go `any`): the code stores arbitrary
application data plus lists of key names under the flash bookkeeping keys. -/
inductive Val where
  | vnat : Nat → Val
  | vstr : String → Val
  | vbool : Bool → Val
  | vlist : List String → Val
deriving DecidableEq, Repr

/-- Go `map[string]any`, embedded as an association list. -/
abbrev AttrMap := List (String × Val)

/-- Lookup (Go `m[k]`, with presence). -/
def mapGet (m : AttrMap) (k : String) : Option Val :=
  match m with
  | [] => none
  | (k1, v) :: rest => if k1 = k then some v else mapGet rest k

/-- Insert/overwrite (Go `m[k] = v`). -/
def mapSet (m : AttrMap) (k : String) (v : Val) : AttrMap :=
  match m with
  | [] => [(k, v)]
  | (k1, v1) :: rest => if k1 = k then (k, v) :: rest else (k1, v1) :: mapSet rest k v

/-- Deletion (Go `delete(m, k)`). -/
def mapDel (m : AttrMap) (k : String) : AttrMap :=
  match m with
  | [] => []
  | (k1, v1) :: rest => if k1 = k then mapDel rest k else (k1, v1) :: mapDel rest k

/-- The keys of an embedded Go map are unique. -/
def nodupKeys (m : AttrMap) : Prop := (m.map Prod.fst).Nodup

instance (m : AttrMap) : Decidable (nodupKeys m) := by
  unfold nodupKeys
  infer_instance

/-- Membership in a Go `map[string]bool` used as a set (`forgets`). -/
def setAdd (l : List String) (k : String) : List String :=
  if k ∈ l then l else l ++ [k]

/-- Removal from the key set (Go `delete`). -/
def setDel (l : List String) (k : String) : List String :=
  l.filter (fun x => x ≠ k)

@[simp] theorem mapGet_nil (k : String) : mapGet [] k = none := rfl

theorem mapGet_mapSet_self (m : AttrMap) (k : String) (v : Val) :
    mapGet (mapSet m k v) k = some v := by
  induction m with
  | nil => simp [mapGet, mapSet]
  | cons hd tl ih =>
    obtain ⟨k1, v1⟩ := hd
    by_cases h : k1 = k
    · simp [mapGet, mapSet, h]
    · simp [mapGet, mapSet, h, ih]

theorem mapGet_mapSet_ne (m : AttrMap) (k k2 : String) (v : Val) (h : k ≠ k2) :
    mapGet (mapSet m k v) k2 = mapGet m k2 := by
  induction m with
  | nil => simp [mapGet, mapSet, h]
  | cons hd tl ih =>
    obtain ⟨k1, v1⟩ := hd
    by_cases h1 : k1 = k
    · subst h1
      simp [mapGet, mapSet, h]
    · simp only [mapSet, if_neg h1]
      by_cases h2 : k1 = k2
      · simp [mapGet, h2]
      · simp [mapGet, h2, ih]

theorem mapGet_mapDel_self (m : AttrMap) (k : String) :
    mapGet (mapDel m k) k = none := by
  induction m with
  | nil => simp [mapDel]
  | cons hd tl ih =>
    obtain ⟨k1, v1⟩ := hd
    by_cases h : k1 = k
    · simp [mapDel, h, ih]
    · simp [mapDel, mapGet, h, ih]

theorem mapGet_mapDel_ne (m : AttrMap) (k k2 : String) (h : k ≠ k2) :
    mapGet (mapDel m k) k2 = mapGet m k2 := by
  induction m with
  | nil => simp [mapDel]
  | cons hd tl ih =>
    obtain ⟨k1, v1⟩ := hd
    by_cases h1 : k1 = k
    · subst h1
      simp [mapDel, mapGet, if_neg h, ih]
    · simp only [mapDel, if_neg h1]
      by_cases h2 : k1 = k2
      · simp [mapGet, h2]
      · simp [mapGet, h2, ih]

/-- Deleting a batch of keys, as the `range forgets` loop does. -/
def mapDelAll (m : AttrMap) (ks : List String) : AttrMap :=
  ks.foldl mapDel m

theorem mapGet_eq_none_of_not_mem_keys (m : AttrMap) (k : String)
    (h : k ∉ m.map Prod.fst) : mapGet m k = none := by
  induction m with
  | nil => rfl
  | cons hd tl ih =>
    obtain ⟨k1, v1⟩ := hd
    simp only [List.map_cons, List.mem_cons, not_or] at h
    have hne : k1 ≠ k := fun hh => h.1 hh.symm
    simp [mapGet, hne, ih h.2]

theorem mapGet_mapDelAll (m : AttrMap) (ks : List String) (k : String) :
    mapGet (mapDelAll m ks) k = if k ∈ ks then none else mapGet m k := by
  induction ks generalizing m with
  | nil => simp [mapDelAll]
  | cons hd tl ih =>
    have step : mapDelAll m (hd :: tl) = mapDelAll (mapDel m hd) tl := rfl
    rw [step, ih]
    by_cases h : k ∈ tl
    · simp [h]
    · by_cases h2 : hd = k
      · subst h2
        simp [h, mapGet_mapDel_self]
      · have h3 : ¬ k ∈ hd :: tl := by
          simp only [List.mem_cons, not_or]
          exact ⟨fun hh => h2 hh.symm, h⟩
        rw [if_neg h, if_neg h3, mapGet_mapDel_ne m hd k h2]

/-- Writing a batch of entries, as the `range puts` loop does. -/
def mapSetAll (m : AttrMap) (entries : AttrMap) : AttrMap :=
  entries.foldl (fun acc kv => mapSet acc kv.1 kv.2) m

theorem mapGet_mapSetAll (m entries : AttrMap) (k : String)
    (hnd : nodupKeys entries) :
    mapGet (mapSetAll m entries) k =
      match mapGet entries k with
      | some v => some v
      | none => mapGet m k := by
  induction entries generalizing m with
  | nil => simp [mapSetAll, mapGet]
  | cons hd tl ih =>
    obtain ⟨k1, v1⟩ := hd
    have hnd2 : nodupKeys tl := by
      simpa [nodupKeys] using (List.nodup_cons.mp hnd).2
    have hk1 : k1 ∉ tl.map Prod.fst := (List.nodup_cons.mp hnd).1
    have step : mapSetAll m ((k1, v1) :: tl) = mapSetAll (mapSet m k1 v1) tl := rfl
    rw [step, ih (mapSet m k1 v1) hnd2]
    by_cases h : k1 = k
    · subst h
      have habs : mapGet tl k1 = none := mapGet_eq_none_of_not_mem_keys tl k1 hk1
      simp [mapGet, habs, mapGet_mapSet_self]
    · simp only [mapGet, if_neg h]
      cases hg : mapGet tl k with
      | some v => simp
      | none => simp [mapGet_mapSet_ne m k1 k v1 h]

theorem mem_setAdd (l : List String) (k k2 : String) :
    k2 ∈ setAdd l k ↔ k2 ∈ l ∨ k2 = k := by
  by_cases h : k ∈ l
  · simp only [setAdd, if_pos h]
    constructor
    · exact Or.inl
    · rintro (h2 | h2)
      · exact h2
      · exact h2 ▸ h
  · simp [setAdd, if_neg h]

theorem mem_setDel (l : List String) (k k2 : String) :
    k2 ∈ setDel l k ↔ k2 ∈ l ∧ k2 ≠ k := by
  simp [setDel, List.mem_filter]

/-- Adding a batch of keys to the `forgets` set. -/
def setAddAll (l : List String) (ks : List String) : List String :=
  ks.foldl setAdd l

theorem mem_setAddAll (l ks : List String) (k : String) :
    k ∈ setAddAll l ks ↔ k ∈ l ∨ k ∈ ks := by
  induction ks generalizing l with
  | nil => simp [setAddAll]
  | cons hd tl ih =>
    simp only [setAddAll, List.foldl_cons] at *
    rw [ih (setAdd l hd)]
    rw [mem_setAdd]
    simp [List.mem_cons]
    tauto

/-- The in-memory session state (`Session` in session.go). The Go pointer
fields `codec`, `driver`, `manager` are embedded by whether they are bound
(`codecBound`, `managerBound`) and by the resolved driver name
(`driverName`); the codec and driver behaviours themselves are passed to
the operations that consume them. -/
structure Session where
  id : String
  name : String
  attributes : AttrMap
  driverName : Option String
  codecBound : Bool
  managerBound : Bool
  started : Bool
  dirty : Bool
  flushed : Bool
  puts : AttrMap
  forgets : List String
deriving DecidableEq, Repr

/-- Go `s.Get(key, default)` restricted to the flash bookkeeping lists:
`s.Get(key, []any{}).([]any)`. The stored value is a `vlist` whenever it
was written by this code; the default covers an absent key. -/
def Session.getStrList (s : Session) (key : String) : List String :=
  match mapGet s.attributes key with
  | some (.vlist l) => l
  | _ => []

/-- Go `Put`: set in `attributes`, record in `puts`, clear the pending
forget, mark dirty. -/
def Session.put (s : Session) (key : String) (value : Val) : Session :=
  { s with
    attributes := mapSet s.attributes key value
    puts := mapSet s.puts key value
    forgets := setDel s.forgets key
    dirty := true }

/-- Go `Forget(keys...)`: remove from `attributes`, record each key in
`forgets`, clear the pending puts, mark dirty. -/
def Session.forget (s : Session) (keys : List String) : Session :=
  { s with
    attributes := mapDelAll s.attributes keys
    puts := mapDelAll s.puts keys
    forgets := setAddAll s.forgets keys
    dirty := true }

/-- Go `Pull(key, def...)`: record the forget, clear the pending put, mark
dirty, and remove-and-return the attribute (`maps.Pull`); the returned
`Option` is the removed value when present (the Go variadic default
otherwise). -/
def Session.pull (s : Session) (key : String) : Session × Option Val :=
  ({ s with
      forgets := setAdd s.forgets key
      puts := mapDel s.puts key
      dirty := true
      attributes := mapDel s.attributes key },
   mapGet s.attributes key)

/-- Go `Flush`: clear attributes and both delta sets, set `flushed` and
`dirty`. -/
def Session.flush (s : Session) : Session :=
  { s with
    attributes := []
    puts := []
    forgets := []
    flushed := true
    dirty := true }

/-- Go `removeFromOldFlashData(keys...)`: delete the keys from the
`_flash.old` list and put the list back. -/
def Session.removeFromOldFlashData (s : Session) (keys : List String) : Session :=
  s.put "_flash.old"
    (.vlist ((s.getStrList "_flash.old").filter (fun x => ¬ x ∈ keys)))

/-- Go `Flash(key, value)`: put the value, append the key to `_flash.new`,
and drop it from `_flash.old`. -/
def Session.flashOp (s : Session) (key : String) (value : Val) : Session :=
  let s1 := s.put key value
  let s2 := s1.put "_flash.new" (.vlist (s1.getStrList "_flash.new" ++ [key]))
  s2.removeFromOldFlashData [key]

/-- Go `Now(key, value)`: put the value and append the key to `_flash.old`
(current-request-only). -/
def Session.nowOp (s : Session) (key : String) (value : Val) : Session :=
  let s1 := s.put key value
  s1.put "_flash.old" (.vlist (s1.getStrList "_flash.old" ++ [key]))

/-- Go `ageFlashData`: forget the keys listed under `_flash.old`, move the
`_flash.new` list (read before the forget) to `_flash.old`, clear
`_flash.new`; no-op when both lists are empty. -/
def Session.ageFlashData (s : Session) : Session :=
  let old := s.getStrList "_flash.old"
  let nw := s.getStrList "_flash.new"
  if old = [] ∧ nw = [] then s
  else
    let s1 := if old = [] then s else s.forget old
    let s2 := s1.put "_flash.old" (.vlist nw)
    s2.put "_flash.new" (.vlist [])

/-- Both flash bookkeeping lists are empty, so `ageFlashData` is a no-op. -/
def flashEmpty (s : Session) : Prop :=
  s.getStrList "_flash.old" = [] ∧ s.getStrList "_flash.new" = []

instance (s : Session) : Decidable (flashEmpty s) := by
  unfold flashEmpty
  infer_instance

theorem ageFlashData_of_flashEmpty (s : Session) (h : flashEmpty s) :
    s.ageFlashData = s := by
  obtain ⟨h1, h2⟩ := h
  simp [Session.ageFlashData, h1, h2]

theorem ageFlashData_preserves (s : Session) :
    s.ageFlashData.id = s.id ∧ s.ageFlashData.name = s.name ∧
    s.ageFlashData.flushed = s.flushed ∧
    s.ageFlashData.managerBound = s.managerBound ∧
    s.ageFlashData.started = s.started ∧
    (s.dirty = true → s.ageFlashData.dirty = true) := by
  unfold Session.ageFlashData
  by_cases h : s.getStrList "_flash.old" = [] ∧ s.getStrList "_flash.new" = []
  · simp [h]
  · by_cases h2 : s.getStrList "_flash.old" = []
    · have h3 : ¬ s.getStrList "_flash.new" = [] := fun hh => h ⟨h2, hh⟩
      simp [h, h2, h3, Session.put, Session.forget]
    · simp [h, h2, Session.put, Session.forget]

/-- The persisted side of a storage driver plus failure injection: `store`
maps session IDs to blobs (`Read` errors on an absent ID, as the drivers
do), `readFail` lists IDs whose `Read` errors regardless, `writeFail` makes
`Write` fail. -/
structure DriverState where
  store : List (String × String)
  readFail : List String
  writeFail : Bool
deriving DecidableEq, Repr

def blobGet (st : List (String × String)) (id : String) : Option String :=
  match st with
  | [] => none
  | (k, b) :: rest => if k = id then some b else blobGet rest id

def blobSet (st : List (String × String)) (id blob : String) : List (String × String) :=
  match st with
  | [] => [(id, blob)]
  | (k, b) :: rest => if k = id then (id, blob) :: rest else (k, b) :: blobSet rest id blob

/-- Go `driver.Read(id)`: the blob, or an error when absent or failing. -/
def driverRead (d : DriverState) (id : String) : Except Unit String :=
  if id ∈ d.readFail then .error ()
  else
    match blobGet d.store id with
    | some b => .ok b
    | none => .error ()

/-- Go `driver.Write(id, data)`: the updated persisted state, or an error. -/
def driverWrite (d : DriverState) (id blob : String) : Except Unit DriverState :=
  if d.writeFail then .error ()
  else .ok { d with store := blobSet d.store id blob }

/-- The codec bound to the Manager (`securecookie.Codec`): encoding and
decoding are abstract fallible functions keyed by the session name. -/
structure Codec where
  Encode : String → AttrMap → Except Unit String
  Decode : String → String → Except Unit AttrMap

/-- Go `readFromHandler`: read the blob for the session's ID; a read error
or a decode error yields `nil` (here `none`). -/
def readFromHandler (s : Session) (c : Codec) (d : DriverState) : Option AttrMap :=
  match driverRead d s.id with
  | .error _ => none
  | .ok value =>
    match c.Decode s.name value with
    | .error _ => none
    | .ok data => some data

/-- Go `loadSession`: copy the decoded data over the current attributes
(`maps.Copy`); a failed read leaves the attributes alone. -/
def loadSession (s : Session) (c : Codec) (d : DriverState) : Session :=
  match readFromHandler s c d with
  | none => s
  | some data => { s with attributes := mapSetAll s.attributes data }

/-- Go `Start`: load, then mark started; the Go method returns
`s.started`, which is `true` at that point. -/
def startSession (s : Session) (c : Codec) (d : DriverState) : Session :=
  { loadSession s c d with started := true }

/-- The Manager's per-ID lock registry (`sessionLocks sync.Map`), embedded
by its set of entries. `LockSession` is `LoadOrStore` followed by locking
the mutex: an entry is created when absent. -/
def lockSession (reg : List String) (id : String) : List String :=
  if id ∈ reg then reg else reg ++ [id]

/-- `UnlockSession` loads the entry and unlocks the mutex; no entry is ever
deleted from the registry. -/
def unlockSession (reg : List String) (_id : String) : List String :=
  reg

/-- The attribute set `Save` persists for a dirty session: the in-memory
attributes when `flushed`, otherwise the freshly re-read backend state
(empty on failure) minus `forgets` plus `puts`. -/
def saveFinal (s : Session) (c : Codec) (d : DriverState) : AttrMap :=
  if s.flushed then s.attributes
  else
    let latest := (readFromHandler s c d).getD []
    mapSetAll (mapDelAll latest s.forgets) s.puts

inductive SaveOutcome where
  | ok
  | encodeErr
  | writeErr
deriving DecidableEq, Repr

/-- The full observable result of `Save`: the session afterwards, the
driver's persisted state, and the lock registry's entry set. -/
structure SaveResult where
  outcome : SaveOutcome
  session : Session
  driver : DriverState
  locks : List String
deriving DecidableEq, Repr

/-- Go `Save`: age flash data, return at once when not dirty, otherwise
lock the session ID (when a manager is bound), compute the final attribute
set, encode it and write it; on success clear `dirty` and `started`. The
deferred `UnlockSession` leaves the registry's entry set unchanged. -/
def save (s0 : Session) (c : Codec) (d : DriverState) (reg : List String) : SaveResult :=
  let s := s0.ageFlashData
  if s.dirty = false then ⟨.ok, s, d, reg⟩
  else
    let reg1 := if s.managerBound then unlockSession (lockSession reg s.id) s.id else reg
    let final := saveFinal s c d
    match c.Encode s.name final with
    | .error _ => ⟨.encodeErr, s, d, reg1⟩
    | .ok data =>
      match driverWrite d s.id data with
      | .error _ => ⟨.writeErr, s, d, reg1⟩
      | .ok d1 => ⟨.ok, { s with dirty := false, started := false }, d1, reg1⟩

/-- The session ID alphabet passed to the nanoid generator. -/
def sessionIdAlphabet : String :=
  "0123456789ABCDEFGHIJKLMNOPQRSTUVWXYZabcdefghijklmnopqrstuvwxyz"

/-- Randomness consumed by one nanoid generation: 32 independent draws
from the 62-character alphabet. -/
def Entropy : Type := Fin 32 → Fin 62

def alphabetChar (n : Fin 62) : Char :=
  sessionIdAlphabet.data.getD n '0'

/-- Go `generateSessionID`: `nanoid.MustCustomASCII(alphabet, 32)()`.
Modelled from the external nanoid library contract: a string of exactly 32
characters drawn from the given alphabet. -/
def generateSessionID (e : Entropy) : String :=
  ⟨(List.finRange 32).map (fun i => alphabetChar (e i))⟩

/-- Go `isValidID`: `len(id) == 32`; Go `len` on a string counts bytes. -/
def isValidID (id : String) : Bool :=
  id.utf8ByteSize = 32

/-- Go `SetID`: keep a valid ID, replace an invalid one by a freshly
generated one. -/
def setID (s : Session) (id : String) (e : Entropy) : Session :=
  if isValidID id then { s with id := id } else { s with id := generateSessionID e }

/-- The Manager state the embedded operations depend on: the set of
registered driver names. -/
structure ManagerState where
  drivers : List String
deriving DecidableEq, Repr

/-- Go `Manager.driver(name...)`: default to "default", reject an empty
name, reject an unregistered name. -/
def managerDriver (m : ManagerState) (name : List String) : Except String String :=
  let driverName := match name with
    | [] => "default"
    | n :: _ => n
  if driverName = "" then .error "driver is not set"
  else if driverName ∈ m.drivers then .ok driverName
  else .error "driver not supported"

/-- A pooled session as produced by the pool's `New` (equivalently, as left
by `reset` on release): zero IDs and names, empty maps, no bindings, all
flags clear. -/
def freshSession : Session :=
  { id := ""
    name := ""
    attributes := []
    driverName := none
    codecBound := false
    managerBound := false
    started := false
    dirty := false
    flushed := false
    puts := []
    forgets := [] }

/-- Go `BuildSession`: resolve the driver, acquire a pooled session, then
assign a freshly generated ID and bind name, codec, driver and manager. -/
def buildSession (m : ManagerState) (name : String) (driverArgs : List String)
    (e : Entropy) : Except String Session :=
  match managerDriver m driverArgs with
  | .error err => .error err
  | .ok dn =>
    .ok { freshSession with
          id := generateSessionID e
          name := name
          codecBound := true
          driverName := some dn
          managerBound := true }

/-! ### Operation sequences over one session (for the delta invariant) -/

/-- The mutators named by the delta invariant. -/
inductive SessionOp where
  | put (k : String) (v : Val)
  | forget (ks : List String)
  | pull (k : String)
  | flush
  | flash (k : String) (v : Val)

def applyOp (s : Session) : SessionOp → Session
  | .put k v => s.put k v
  | .forget ks => s.forget ks
  | .pull k => (s.pull k).1
  | .flush => s.flush
  | .flash k v => s.flashOp k v

def applyOps (s : Session) (ops : List SessionOp) : Session :=
  ops.foldl applyOp s

/-- No key is simultaneously buffered in `puts` and marked in `forgets`. -/
def deltasDisjoint (s : Session) : Prop :=
  ∀ k, (mapGet s.puts k).isSome → ¬ k ∈ s.forgets

theorem deltasDisjoint_put (s : Session) (k : String) (v : Val)
    (h : deltasDisjoint s) : deltasDisjoint (s.put k v) := by
  intro k2 hk2
  simp only [Session.put] at hk2 ⊢
  rw [mem_setDel]
  by_cases he : k = k2
  · subst he
    exact fun hc => hc.2 rfl
  · rw [mapGet_mapSet_ne s.puts k k2 v he] at hk2
    exact fun hc => h k2 hk2 hc.1

theorem deltasDisjoint_forget (s : Session) (ks : List String)
    (h : deltasDisjoint s) : deltasDisjoint (s.forget ks) := by
  intro k2 hk2
  simp only [Session.forget] at hk2 ⊢
  rw [mem_setAddAll]
  rw [mapGet_mapDelAll] at hk2
  by_cases he : k2 ∈ ks
  · simp [he] at hk2
  · rw [if_neg he] at hk2
    exact fun hc => hc.elim (h k2 hk2) he

theorem deltasDisjoint_pull (s : Session) (k : String)
    (h : deltasDisjoint s) : deltasDisjoint (s.pull k).1 := by
  intro k2 hk2
  simp only [Session.pull] at hk2 ⊢
  rw [mem_setAdd]
  by_cases he : k = k2
  · subst he
    simp [mapGet_mapDel_self] at hk2
  · rw [mapGet_mapDel_ne s.puts k k2 he] at hk2
    rintro (hc | hc)
    · exact h k2 hk2 hc
    · exact he hc.symm

theorem deltasDisjoint_flush (s : Session) :
    deltasDisjoint s.flush := by
  intro k2 hk2
  simp [Session.flush, mapGet] at hk2

theorem deltasDisjoint_flash (s : Session) (k : String) (v : Val)
    (h : deltasDisjoint s) : deltasDisjoint (s.flashOp k v) := by
  unfold Session.flashOp Session.removeFromOldFlashData
  exact deltasDisjoint_put _ _ _ (deltasDisjoint_put _ _ _ (deltasDisjoint_put _ _ _ h))

theorem deltasDisjoint_applyOps (s : Session) (ops : List SessionOp)
    (h : deltasDisjoint s) : deltasDisjoint (applyOps s ops) := by
  induction ops generalizing s with
  | nil => exact h
  | cons op tl ih =>
    have step : applyOps s (op :: tl) = applyOps (applyOp s op) tl := rfl
    rw [step]
    refine ih (applyOp s op) ?_
    cases op with
    | put k v => exact deltasDisjoint_put s k v h
    | forget ks => exact deltasDisjoint_forget s ks h
    | pull k => exact deltasDisjoint_pull s k h
    | flush => exact deltasDisjoint_flush s
    | flash k v => exact deltasDisjoint_flash s k v h

/-! ### Claim theorems -/

/-- C8: after any sequence of Put, Forget, Pull, Flush and Flash
operations starting from a state whose deltas are disjoint, no key is ever
present in both `puts` and `forgets`; moreover Put clears the key's
pending forget, and Forget/Pull clear the key's pending put. -/
theorem puts_forgets_never_overlap (s : Session) (ops : List SessionOp)
    (h : deltasDisjoint s) :
    deltasDisjoint (applyOps s ops) ∧
    (∀ k v, ¬ k ∈ (s.put k v).forgets) ∧
    (∀ ks k, k ∈ ks → mapGet (s.forget ks).puts k = none) ∧
    (∀ k, mapGet (s.pull k).1.puts k = none) := by
  refine ⟨deltasDisjoint_applyOps s ops h, ?_, ?_, ?_⟩
  · intro k v
    simp [Session.put, mem_setDel]
  · intro ks k hk
    simp [Session.forget, mapGet_mapDelAll, hk]
  · intro k
    simp [Session.pull, mapGet_mapDel_self]

theorem puts_forgets_never_overlap_witness :
    deltasDisjoint (applyOps freshSession
      [.put "a" (.vnat 1), .flash "b" (.vstr "x"), .forget ["a"], .pull "b", .flush]) := by
  refine (puts_forgets_never_overlap freshSession _ ?_).1
  intro k hk
  simp [freshSession, mapGet] at hk

/-- C7: when the driver read for the session's ID fails, or the decode of
the blob fails, Start completes (returning `started = true`) and leaves the
(empty) attribute set empty: corruption degrades to a new empty session. -/
theorem start_degrades_corrupt_to_empty (s : Session) (c : Codec) (d : DriverState)
    (hempty : s.attributes = [])
    (hfail : driverRead d s.id = .error () ∨
      ∃ b, driverRead d s.id = .ok b ∧ c.Decode s.name b = .error ()) :
    startSession s c d = { s with started := true } ∧
    (startSession s c d).attributes = [] ∧
    (startSession s c d).started = true := by
  have hnone : readFromHandler s c d = none := by
    unfold readFromHandler
    rcases hfail with hfail | ⟨b, hb, hdec⟩
    · rw [hfail]
    · rw [hb]
      simp [hdec]
  have hload : loadSession s c d = s := by
    unfold loadSession
    rw [hnone]
  unfold startSession
  rw [hload]
  exact ⟨rfl, hempty, rfl⟩

def errCodec : Codec := ⟨fun _ _ => .error (), fun _ _ => .error ()⟩

def emptyDriver : DriverState := ⟨[], [], false⟩

theorem start_degrades_corrupt_to_empty_witness :
    startSession freshSession errCodec emptyDriver =
      { freshSession with started := true } ∧
    (startSession freshSession errCodec emptyDriver).attributes = [] ∧
    (startSession freshSession errCodec emptyDriver).started = true :=
  start_degrades_corrupt_to_empty freshSession errCodec emptyDriver rfl
    (Or.inl rfl)

/-- C9: ageFlashData forgets every key listed under `_flash.old` (other
than the two bookkeeping keys themselves), stores the previous
`_flash.new` list under `_flash.old`, clears `_flash.new`, and is the
identity (in particular leaving `dirty` untouched) when both lists are
empty. -/
theorem ageFlashData_two_generation (s : Session) :
    (s.getStrList "_flash.old" = [] → s.getStrList "_flash.new" = [] →
      s.ageFlashData = s) ∧
    (∀ k, k ∈ s.getStrList "_flash.old" → k ≠ "_flash.old" → k ≠ "_flash.new" →
      mapGet s.ageFlashData.attributes k = none ∧ k ∈ s.ageFlashData.forgets) ∧
    (¬ (s.getStrList "_flash.old" = [] ∧ s.getStrList "_flash.new" = []) →
      mapGet s.ageFlashData.attributes "_flash.old" =
        some (.vlist (s.getStrList "_flash.new")) ∧
      mapGet s.ageFlashData.attributes "_flash.new" = some (.vlist [])) := by
  refine ⟨fun h1 h2 => ageFlashData_of_flashEmpty s ⟨h1, h2⟩, ?_, ?_⟩
  · intro k hk hne1 hne2
    have hold : ¬ s.getStrList "_flash.old" = [] := by
      intro hh
      rw [hh] at hk
      exact absurd hk (List.not_mem_nil k)
    have hcond : ¬ (s.getStrList "_flash.old" = [] ∧ s.getStrList "_flash.new" = []) :=
      fun hh => hold hh.1
    unfold Session.ageFlashData
    rw [if_neg hcond, if_neg hold]
    constructor
    · simp only [Session.put, Session.forget]
      rw [mapGet_mapSet_ne _ _ _ _ (fun hh => hne2 hh.symm),
        mapGet_mapSet_ne _ _ _ _ (fun hh => hne1 hh.symm),
        mapGet_mapDelAll]
      simp [hk]
    · simp only [Session.put, Session.forget]
      rw [mem_setDel, mem_setDel, mem_setAddAll]
      exact ⟨⟨Or.inr hk, hne1⟩, hne2⟩
  · intro hcond
    unfold Session.ageFlashData
    rw [if_neg hcond]
    by_cases hold : s.getStrList "_flash.old" = [] <;>
      simp only [hold, if_pos, if_neg, Session.put] <;>
      constructor <;>
      first
        | (rw [mapGet_mapSet_ne _ _ _ _ (by decide : ("_flash.new" : String) ≠ "_flash.old")]
           exact mapGet_mapSet_self _ _ _)
        | exact mapGet_mapSet_self _ _ _

def agingWitnessSession : Session :=
  { freshSession with
    attributes := [("_flash.old", .vlist ["x"]), ("x", .vnat 1), ("_flash.new", .vlist ["y"])] }

theorem ageFlashData_two_generation_witness :
    mapGet agingWitnessSession.ageFlashData.attributes "x" = none ∧
    "x" ∈ agingWitnessSession.ageFlashData.forgets ∧
    mapGet agingWitnessSession.ageFlashData.attributes "_flash.old" =
      some (.vlist ["y"]) ∧
    mapGet agingWitnessSession.ageFlashData.attributes "_flash.new" =
      some (.vlist []) := by
  obtain ⟨h1, h2⟩ := (ageFlashData_two_generation agingWitnessSession).2.1 "x"
    (by decide) (by decide) (by decide)
  obtain ⟨h3, h4⟩ := (ageFlashData_two_generation agingWitnessSession).2.2
    (by decide)
  exact ⟨h1, h2, by simpa using h3, h4⟩

/-! ### Save fixtures -/

/-- A codec whose encoder always yields the blob "E" and whose decoder
always fails. -/
def stubCodec : Codec := ⟨fun _ _ => .ok "E", fun _ _ => .error ()⟩

/-- A codec that decodes the seeded blob "B" to the map `{k ↦ 1}` and whose
encoder records whether the encoded map still contains the key "k". -/
def probeCodec : Codec :=
  ⟨fun _ m => .ok (if mapGet m "k" = none then "NOK" else "KOK"),
   fun _ b => if b = "B" then .ok [("k", .vnat 1)] else .error ()⟩

def seededDriver : DriverState := ⟨[("I", "B")], [], false⟩

def preloadedDriver : DriverState := ⟨[("I", "OLD")], [], false⟩

/-- A saved (clean) session still carrying a pending flash generation. -/
def cleanFlashSession : Session :=
  { freshSession with
    id := "I", name := "n", codecBound := true, managerBound := true
    driverName := some "mock", started := true
    attributes := [("_flash.old", .vlist ["x"]), ("x", .vnat 1)] }

def dirtyFlashSession : Session := { cleanFlashSession with dirty := true }

/-- A dirty session whose only delta is `Put("a", 2)` but which still
carries flash bookkeeping naming the persisted key "k". -/
def mergeCexSession : Session :=
  { freshSession with
    id := "I", name := "n", codecBound := true, managerBound := true
    driverName := some "mock", started := true, dirty := true
    attributes := [("_flash.old", .vlist ["k"]), ("k", .vnat 1), ("a", .vnat 2)]
    puts := [("a", .vnat 2)] }

/-- A dirty session with one buffered put and no flash data. -/
def mergeWitnessSession : Session :=
  { freshSession with
    id := "I", name := "n", codecBound := true, managerBound := true
    driverName := some "mock", started := true, dirty := true
    attributes := [("a", .vnat 1)], puts := [("a", .vnat 1)] }

/-- A flushed dirty session. -/
def flushedWitnessSession : Session :=
  { freshSession with
    id := "I", name := "n", managerBound := true, dirty := true, flushed := true
    attributes := [("a", .vnat 1)] }

/-! ### C5 -/

/-- C5 (amended): on a session that is not dirty and has no pending flash
bookkeeping, Save writes nothing, touches no lock registry entry, returns
success, and leaves the session unchanged. -/
theorem save_clean_session_noop (s : Session) (c : Codec) (d : DriverState)
    (reg : List String) (hflash : flashEmpty s) (hdirty : s.dirty = false) :
    save s c d reg = ⟨.ok, s, d, reg⟩ := by
  simp [save, ageFlashData_of_flashEmpty s hflash, hdirty]

theorem save_clean_session_noop_witness :
    save freshSession stubCodec emptyDriver [] = ⟨.ok, freshSession, emptyDriver, []⟩ :=
  save_clean_session_noop freshSession stubCodec emptyDriver [] (by decide) rfl

/-- C5 (counterexample): a clean session still carrying flash bookkeeping
is aged by Save into a dirty state, so Save locks its ID, writes to the
backend and mutates the session even though `dirty` was false at entry. -/
theorem save_clean_session_flash_cex :
    cleanFlashSession.dirty = false ∧
    (save cleanFlashSession stubCodec emptyDriver []).driver.store = [("I", "E")] ∧
    (save cleanFlashSession stubCodec emptyDriver []).locks = ["I"] ∧
    (save cleanFlashSession stubCodec emptyDriver []).session ≠ cleanFlashSession := by
  decide

/-! ### C6 -/

/-- C6 (amended): for every dirty session, a failing encode or a failing
write makes Save return that error with the dirty flag still true and the
backend untouched, so the caller may retry; when additionally the flash
bookkeeping sequences are empty, the session (attributes, puts and
forgets included) is returned exactly as it was at entry. -/
theorem save_failure_keeps_dirty (s : Session) (c : Codec) (d : DriverState)
    (reg : List String) (hdirty : s.dirty = true) (hmb : s.managerBound = true) :
    (∀ err : Unit, c.Encode s.name (saveFinal s.ageFlashData c d) = .error err →
      save s c d reg = ⟨.encodeErr, s.ageFlashData, d, lockSession reg s.id⟩ ∧
      s.ageFlashData.dirty = true) ∧
    (∀ blob, c.Encode s.name (saveFinal s.ageFlashData c d) = .ok blob →
      d.writeFail = true →
      save s c d reg = ⟨.writeErr, s.ageFlashData, d, lockSession reg s.id⟩ ∧
      s.ageFlashData.dirty = true) ∧
    (flashEmpty s →
      (∀ err : Unit, c.Encode s.name (saveFinal s c d) = .error err →
        save s c d reg = ⟨.encodeErr, s, d, lockSession reg s.id⟩) ∧
      (∀ blob, c.Encode s.name (saveFinal s c d) = .ok blob → d.writeFail = true →
        save s c d reg = ⟨.writeErr, s, d, lockSession reg s.id⟩)) := by
  obtain ⟨hid, hname, hflu, hmb2, hst, hdi⟩ := ageFlashData_preserves s
  have ht : s.ageFlashData.dirty = true := hdi hdirty
  have hmb3 : s.ageFlashData.managerBound = true := by rw [hmb2, hmb]
  refine ⟨?_, ?_, ?_⟩
  · intro err henc
    refine ⟨?_, ht⟩
    simp [save, ht, hmb3, unlockSession, hname, hid, henc]
  · intro blob henc hw
    refine ⟨?_, ht⟩
    simp [save, ht, hmb3, unlockSession, hname, hid, henc, driverWrite, hw]
  · intro hflash
    have hage := ageFlashData_of_flashEmpty s hflash
    constructor
    · intro err henc
      simp [save, hage, hdirty, hmb, unlockSession, henc]
    · intro blob henc hw
      simp [save, hage, hdirty, hmb, unlockSession, henc, driverWrite, hw]

theorem save_failure_keeps_dirty_witness :
    (save dirtyFlashSession errCodec emptyDriver [] =
      ⟨.encodeErr, dirtyFlashSession.ageFlashData, emptyDriver, ["I"]⟩ ∧
      dirtyFlashSession.ageFlashData.dirty = true) ∧
    save mergeWitnessSession errCodec emptyDriver [] =
      ⟨.encodeErr, mergeWitnessSession, emptyDriver, ["I"]⟩ :=
  ⟨(save_failure_keeps_dirty dirtyFlashSession errCodec emptyDriver [] rfl rfl).1
      () rfl,
   ((save_failure_keeps_dirty mergeWitnessSession errCodec emptyDriver [] rfl rfl).2.2
      (by decide)).1 () rfl⟩

/-- C6 (counterexample): a dirty session that still carries flash
bookkeeping is aged before the failing encode, so the returned session has
different attributes than at entry (the claim's "attributes unchanged"
fails), although `dirty` does remain true. -/
theorem save_failure_flash_mutation_cex :
    dirtyFlashSession.dirty = true ∧
    (save dirtyFlashSession errCodec emptyDriver []).outcome = .encodeErr ∧
    (save dirtyFlashSession errCodec emptyDriver []).session.dirty = true ∧
    (save dirtyFlashSession errCodec emptyDriver []).session.attributes ≠
      dirtyFlashSession.attributes := by
  decide

/-! ### C1 -/

/-- C1 (amended): for a dirty, unflushed session whose flash bookkeeping
is empty (so aging leaves its deltas untouched), a successful Save writes
exactly the encoding of the freshly re-read backend state (empty on a
failed read or decode) minus the session's forgets plus its puts; a key in
neither delta keeps its value from the backend re-read. -/
theorem save_merges_request_deltas (s : Session) (c : Codec) (d : DriverState)
    (reg : List String) (blob : String)
    (hflash : flashEmpty s) (hnodup : nodupKeys s.puts) (hdirty : s.dirty = true)
    (hfl : s.flushed = false) (hmb : s.managerBound = true)
    (henc : c.Encode s.name (saveFinal s c d) = .ok blob) (hw : d.writeFail = false) :
    save s c d reg =
      ⟨.ok, { s with dirty := false, started := false },
        { d with store := blobSet d.store s.id blob }, lockSession reg s.id⟩ ∧
    ∀ k, mapGet (saveFinal s c d) k =
      match mapGet s.puts k with
      | some v => some v
      | none =>
        if k ∈ s.forgets then none
        else mapGet ((readFromHandler s c d).getD []) k := by
  have hage := ageFlashData_of_flashEmpty s hflash
  constructor
  · simp [save, hage, hdirty, hmb, unlockSession, henc, driverWrite, hw]
  · intro k
    unfold saveFinal
    rw [if_neg (by simp [hfl])]
    rw [mapGet_mapSetAll _ _ _ hnodup]
    cases mapGet s.puts k with
    | some v => rfl
    | none =>
      simp only []
      rw [mapGet_mapDelAll]

theorem save_merges_request_deltas_witness :
    save mergeWitnessSession stubCodec emptyDriver [] =
      ⟨.ok, { mergeWitnessSession with dirty := false, started := false },
        ⟨[("I", "E")], [], false⟩, ["I"]⟩ ∧
    mapGet (saveFinal mergeWitnessSession stubCodec emptyDriver) "a" =
      some (.vnat 1) := by
  have h := save_merges_request_deltas mergeWitnessSession stubCodec emptyDriver
    [] "E" (by decide) (by decide) rfl rfl rfl rfl rfl
  exact ⟨h.1, by have h2 := h.2 "a"; simpa using h2⟩

/-- C1 (counterexample): a session carrying flash bookkeeping forgets keys
during Save that were in neither its `puts` nor its `forgets` at entry:
the backend holds `{k ↦ 1}`, the session's entry deltas never touch "k",
yet the persisted map no longer contains "k" (the probe codec encodes
"NOK" exactly when "k" is absent from the map being persisted). -/
theorem save_merge_entry_deltas_cex :
    mapGet mergeCexSession.puts "k" = none ∧
    ¬ "k" ∈ mergeCexSession.forgets ∧
    mapGet ((readFromHandler mergeCexSession probeCodec seededDriver).getD []) "k" =
      some (.vnat 1) ∧
    (save mergeCexSession probeCodec seededDriver []).outcome = .ok ∧
    (save mergeCexSession probeCodec seededDriver []).driver.store = [("I", "NOK")] := by
  decide

/-! ### C4 -/

/-- C4: once the flushed flag is set, a successful Save writes exactly the
encoding of the session's current (post-aging) in-memory attributes,
overwriting the backend record whatever it held; the persisted set does
not depend on the backend state at all (no merge). -/
theorem save_flushed_full_overwrite (s : Session) (c : Codec) (d : DriverState)
    (reg : List String) (blob : String)
    (hfl : s.flushed = true) (hdirty : s.dirty = true) (hmb : s.managerBound = true)
    (henc : c.Encode s.name s.ageFlashData.attributes = .ok blob)
    (hw : d.writeFail = false) :
    save s c d reg =
      ⟨.ok, { s.ageFlashData with dirty := false, started := false },
        { d with store := blobSet d.store s.id blob }, lockSession reg s.id⟩ ∧
    ∀ d2 : DriverState, saveFinal s.ageFlashData c d2 = s.ageFlashData.attributes := by
  obtain ⟨hid, hname, hflu, hmb2, hst, hdi⟩ := ageFlashData_preserves s
  have ht : s.ageFlashData.dirty = true := hdi hdirty
  have hflu2 : s.ageFlashData.flushed = true := by rw [hflu, hfl]
  have hmb3 : s.ageFlashData.managerBound = true := by rw [hmb2, hmb]
  have hsf : ∀ d2 : DriverState, saveFinal s.ageFlashData c d2 = s.ageFlashData.attributes := by
    intro d2
    simp [saveFinal, hflu2]
  refine ⟨?_, hsf⟩
  simp [save, ht, hmb3, unlockSession, hsf, hname, hid, henc, driverWrite, hw]

theorem save_flushed_full_overwrite_witness :
    save flushedWitnessSession stubCodec preloadedDriver [] =
      ⟨.ok, { flushedWitnessSession with dirty := false, started := false },
        ⟨[("I", "E")], [], false⟩, ["I"]⟩ :=
  (save_flushed_full_overwrite flushedWitnessSession stubCodec preloadedDriver
    [] "E" rfl rfl rfl rfl rfl).1

/-! ### C2 -/

/-- C2 (code bug): UnlockSession never deletes the registry entry that
LockSession created with LoadOrStore, so after a matched
LockSession/UnlockSession pair the registry still holds an entry for the
ID and its entry count is 1, not 0. -/
theorem lock_registry_leaks_entry :
    (∀ reg id2, unlockSession (lockSession reg id2) id2 = lockSession reg id2) ∧
    unlockSession (lockSession [] "S0") "S0" = ["S0"] ∧
    (unlockSession (lockSession [] "S0") "S0").length ≠ 0 :=
  ⟨fun _ _ => rfl, rfl, by decide⟩

/-! ### C3 -/

def e0 : Entropy := fun _ => 0

theorem generateSessionID_length (e : Entropy) :
    (generateSessionID e).length = 32 := by
  simp [generateSessionID, String.length]

/-- C3 (amended): a successful BuildSession yields a pooled session bound
to the resolved driver, the manager's codec and the manager, with empty
attributes, puts and forgets, no load performed, all lifecycle flags clear
— but with a freshly generated 32-character session ID already assigned. -/
theorem buildSession_binds_pooled_session (m : ManagerState) (name : String)
    (dargs : List String) (e : Entropy) (s : Session)
    (h : buildSession m name dargs e = .ok s) :
    s.attributes = [] ∧ s.puts = [] ∧ s.forgets = [] ∧
    s.started = false ∧ s.dirty = false ∧ s.flushed = false ∧
    s.name = name ∧ s.codecBound = true ∧ s.managerBound = true ∧
    (∃ dn, managerDriver m dargs = .ok dn ∧ s.driverName = some dn) ∧
    s.id = generateSessionID e ∧ s.id.length = 32 := by
  unfold buildSession at h
  cases hd : managerDriver m dargs with
  | error err =>
    rw [hd] at h
    exact absurd h (by simp)
  | ok dn =>
    rw [hd] at h
    simp only [Except.ok.injEq] at h
    subst h
    refine ⟨rfl, rfl, rfl, rfl, rfl, rfl, rfl, rfl, rfl, ⟨dn, rfl, rfl⟩, rfl, ?_⟩
    exact generateSessionID_length e

def builtWitnessSession : Session :=
  { freshSession with
    id := generateSessionID e0, name := "n", codecBound := true
    driverName := some "default", managerBound := true }

theorem buildSession_binds_pooled_session_witness :
    builtWitnessSession.attributes = [] ∧ builtWitnessSession.puts = [] ∧
    builtWitnessSession.forgets = [] ∧
    builtWitnessSession.started = false ∧ builtWitnessSession.dirty = false ∧
    builtWitnessSession.flushed = false ∧
    builtWitnessSession.name = "n" ∧ builtWitnessSession.codecBound = true ∧
    builtWitnessSession.managerBound = true ∧
    (∃ dn, managerDriver ⟨["default"]⟩ [] = .ok dn ∧
      builtWitnessSession.driverName = some dn) ∧
    builtWitnessSession.id = generateSessionID e0 ∧
    builtWitnessSession.id.length = 32 :=
  buildSession_binds_pooled_session ⟨["default"]⟩ "n" [] e0 builtWitnessSession rfl

/-- C3 (counterexample): BuildSession assigns a freshly generated
32-character ID to the session it returns; the ID is not left unset. -/
theorem buildSession_assigns_fresh_id_cex :
    (buildSession ⟨["default"]⟩ "session" [] e0).toOption.map Session.id =
      some (generateSessionID e0) ∧
    generateSessionID e0 ≠ "" ∧ (generateSessionID e0).length = 32 :=
  ⟨rfl, by decide, by decide⟩

/-! ### C10 -/

theorem alphabetChar_utf8Size (n : Fin 62) : (alphabetChar n).utf8Size = 1 := by
  revert n
  decide

theorem alphabetChar_mem (n : Fin 62) : alphabetChar n ∈ sessionIdAlphabet.data := by
  revert n
  decide

theorem utf8SizeGo_all_one (l : List Char) (h : ∀ c ∈ l, c.utf8Size = 1) :
    String.utf8ByteSize.go l = l.length := by
  induction l with
  | nil => rfl
  | cons c cs ih =>
    have step : String.utf8ByteSize.go (c :: cs) =
        String.utf8ByteSize.go cs + c.utf8Size := rfl
    rw [step, ih (fun c2 h2 => h c2 (List.mem_cons_of_mem c h2)),
      h c (List.mem_cons_self c cs), List.length_cons]

theorem generateSessionID_utf8ByteSize (e : Entropy) :
    (generateSessionID e).utf8ByteSize = 32 := by
  have hall : ∀ c ∈ (List.finRange 32).map (fun i => alphabetChar (e i)),
      c.utf8Size = 1 := by
    intro c hc
    obtain ⟨i, _, rfl⟩ := List.mem_map.mp hc
    exact alphabetChar_utf8Size (e i)
  have step : (generateSessionID e).utf8ByteSize =
      String.utf8ByteSize.go ((List.finRange 32).map (fun i => alphabetChar (e i))) := rfl
  rw [step, utf8SizeGo_all_one _ hall]
  simp

/-- C10 (amended): SetID keeps the given ID exactly when its UTF-8 byte
length is 32 (Go `len`), which for ASCII ids is 32 characters; otherwise
it installs a freshly generated 32-character ID drawn from the URL-safe
alphabet, which is never equal to the rejected value. -/
theorem setID_byte_length_check (s : Session) (id2 : String) (e : Entropy) :
    (id2.utf8ByteSize = 32 → setID s id2 e = { s with id := id2 }) ∧
    (id2.utf8ByteSize ≠ 32 →
      setID s id2 e = { s with id := generateSessionID e } ∧
      (generateSessionID e).length = 32 ∧
      (∀ c ∈ (generateSessionID e).data, c ∈ sessionIdAlphabet.data) ∧
      (setID s id2 e).id ≠ id2) := by
  constructor
  · intro h
    simp [setID, isValidID, h]
  · intro h
    have hv : isValidID id2 = false := by simp [isValidID, h]
    refine ⟨by simp [setID, hv], generateSessionID_length e, ?_, ?_⟩
    · intro c hc
      obtain ⟨i, _, rfl⟩ := List.mem_map.mp hc
      exact alphabetChar_mem (e i)
    · simp only [setID, hv, Bool.false_eq_true, if_false]
      intro hEq
      exact h (hEq ▸ generateSessionID_utf8ByteSize e)

def okId : String := "0123456789ABCDEF0123456789ABCDEF"

/-- A 32-character string whose Go byte length is 64. -/
def badId : String := String.mk (List.replicate 32 'é')

theorem setID_byte_length_check_witness :
    setID freshSession okId e0 = { freshSession with id := okId } ∧
    (setID freshSession badId e0).id ≠ badId :=
  ⟨(setID_byte_length_check freshSession okId e0).1 (by decide),
   ((setID_byte_length_check freshSession badId e0).2 (by decide)).2.2.2⟩

/-- C10 (counterexample): a 32-character id made of two-byte characters is
rejected by SetID (Go measures bytes, not characters): the session gets a
freshly generated id instead of the given one. -/
theorem setID_char_length_cex :
    badId.length = 32 ∧
    (setID freshSession badId e0).id = generateSessionID e0 ∧
    (setID freshSession badId e0).id ≠ badId ∧ badId ≠ "" := by
  decide

end Sessions
